import Mathlib

/-!
# Verification of the MCP tool-server collection

A shallow embedding, in Lean 4, of the security- and correctness-relevant
routines of the repository's tool servers:

* `fs_server.py`   — `validate_path`, `write_file`, `read_file`, `copy_file`,
  `delete_directory` over an explicit filesystem model;
* `git_server.py`  — `git_execute` (allow-list and metacharacter screening);
* `python_server_wsl.py` — `save_execution_result` / `get_execution_results`;
* `mcp_info_server.py`   — `search_file_content` / `search_mcp_docs`;
* `python_execution_server.py` — `sanitize_filename` / the stored filename of
  `write_python_file`;
* `calculator_server.py` — `divide`.

Modelling conventions:

* Caller-supplied relative paths are represented by their list of raw
  segments (`List String`), i.e. the decomposition of the path string at
  the separators; `os.path.normpath` becomes explicit segment
  normalisation (`normRel` for relative paths, `normAbsAux` for absolute
  paths rooted at the Windows drive root, where surplus `..` segments are
  clamped exactly as `ntpath.normpath` clamps them at the drive root).
* The OS filesystem is a state `FS`: a set of existing directories and a
  map from paths to on-disk file bytes.  `open(..., "w")` and
  `open(..., "r")` are text-mode handles with `newline=None` on the
  Windows host: writing translates `\n` to `os.linesep = "\r\n"` and
  reading translates `\r\n` and lone `\r` back to `\n`
  (`encodeNl`/`decodeNl`); `os.makedirs`, `os.rmdir`, `shutil.rmtree`
  and `shutil.copy2` (a byte-for-byte copy) are the corresponding state
  transformations.  Handlers thread this state explicitly and return the
  message string the Python code returns.
* Python strings are Lean `String`s; the character-level operations
  (`split`, `in`, `endswith`, `str.split()`) are defined on `String.data`.
-/

/-! ## Generic list/string helpers -/

/-- Boolean membership via decidable equality. -/
def memB {α : Type} [DecidableEq α] (l : List α) (x : α) : Bool :=
  l.any (fun y => decide (y = x))

theorem memB_iff {α : Type} [DecidableEq α] (l : List α) (x : α) :
    memB l x = true ↔ x ∈ l := by
  simp [memB]

/-- Boolean test that `a` is an initial segment of `b`. -/
def listPrefixB {α : Type} [DecidableEq α] : List α → List α → Bool
  | [], _ => true
  | _ :: _, [] => false
  | a :: as, b :: bs => if a = b then listPrefixB as bs else false

theorem listPrefixB_iff {α : Type} [DecidableEq α] :
    ∀ (a b : List α), listPrefixB a b = true ↔ a <+: b
  | [], _ => by simp [listPrefixB]
  | _ :: _, [] => by simp [listPrefixB]
  | a :: as, b :: bs => by
    simp only [listPrefixB, List.cons_prefix_cons]
    by_cases h : a = b
    · simp [h, listPrefixB_iff as bs]
    · simp [h]

theorem listPrefixB_refl {α : Type} [DecidableEq α] (l : List α) :
    listPrefixB l l = true :=
  (listPrefixB_iff l l).mpr (List.prefix_refl l)

/-- Boolean test that `sub` occurs contiguously inside `s`
(the shallow embedding of Python's `sub in s` on strings). -/
def listInfixB {α : Type} [DecidableEq α] (sub s : List α) : Bool :=
  (List.range (s.length + 1)).any (fun i => listPrefixB sub (s.drop i))

theorem listInfixB_iff {α : Type} [DecidableEq α] (sub s : List α) :
    listInfixB sub s = true ↔ sub <:+: s := by
  constructor
  · intro h
    rcases List.any_eq_true.mp h with ⟨i, _, hp⟩
    rcases (listPrefixB_iff sub (s.drop i)).mp hp with ⟨r, hr⟩
    exact ⟨s.take i, r, by rw [List.append_assoc, hr, List.take_append_drop]⟩
  · rintro ⟨u, v, huv⟩
    apply List.any_eq_true.mpr
    refine ⟨u.length, List.mem_range.mpr ?_, ?_⟩
    · have : u.length ≤ s.length := by
        rw [← huv]; simp [List.length_append]
      omega
    · apply (listPrefixB_iff _ _).mpr
      refine ⟨v, ?_⟩
      rw [← huv, List.append_assoc, List.drop_left]

theorem str_data_append (a b : String) : (a ++ b).data = a.data ++ b.data := by
  cases a; cases b; rfl

/-- `sub` occurs as a substring of `s`. -/
def SubStrB (sub s : String) : Bool :=
  listInfixB sub.data s.data

/-- Python `s.startswith(t)` / string prefix test. -/
def startsWithB (s t : String) : Bool :=
  listPrefixB t.data s.data

/-- Python `s.endswith(t)` as a Boolean string suffix test. -/
def endsWithB (s t : String) : Bool :=
  decide (t.data <:+ s.data)

/-- `"\n".join(l)` of Python. -/
def joinLines : List String → String
  | [] => ""
  | [x] => x
  | x :: xs => x ++ "\n" ++ joinLines xs

/-- `" ".join(l)` of Python. -/
def joinSpace : List String → String
  | [] => ""
  | [x] => x
  | x :: xs => x ++ " " ++ joinSpace xs

theorem infix_append_left {α : Type} {l b : List α} (a : List α)
    (h : l <:+: b) : l <:+: a ++ b := by
  rcases h with ⟨u, v, huv⟩
  exact ⟨a ++ u, v, by rw [← huv]; simp [List.append_assoc]⟩

/-- Every element of `l` occurs as a substring of `joinLines l`. -/
theorem mem_joinLines_contains (x : String) :
    ∀ l : List String, x ∈ l → x.data <:+: (joinLines l).data
  | [], h => absurd h (List.not_mem_nil x)
  | [y], h => by
    rcases List.mem_singleton.mp h with rfl
    exact List.infix_refl _
  | y :: z :: zs, h => by
    rcases List.mem_cons.mp h with rfl | h2
    · show x.data <:+: (x ++ "\n" ++ joinLines (z :: zs)).data
      rw [str_data_append, str_data_append]
      exact ⟨[], ("\n".data ++ (joinLines (z :: zs)).data), by simp⟩
    · show x.data <:+: (y ++ "\n" ++ joinLines (z :: zs)).data
      rw [str_data_append, str_data_append]
      rw [List.append_assoc]
      exact infix_append_left _ (infix_append_left _
        (mem_joinLines_contains x (z :: zs) h2))

/-- Association-list lookup (the shallow embedding of a Python `dict`). -/
def alookup {κ β : Type} [DecidableEq κ] : List (κ × β) → κ → Option β
  | [], _ => none
  | (k, v) :: t, x => if k = x then some v else alookup t x

theorem alookup_filter_none {κ β : Type} [DecidableEq κ] (g : κ × β → Bool) (x : κ)
    (hgx : ∀ v, g (x, v) = false) :
    ∀ l : List (κ × β), alookup (l.filter g) x = none
  | [] => rfl
  | (k, v) :: t => by
    cases hk : g (k, v) with
    | true =>
      have hkx : ¬ k = x := fun h => by rw [h, hgx v] at hk; cases hk
      simp only [List.filter_cons, hk, if_true, alookup, if_neg hkx]
      exact alookup_filter_none g x hgx t
    | false =>
      simp only [List.filter_cons, hk, Bool.false_eq_true, if_false]
      exact alookup_filter_none g x hgx t

/-! ## Path model (`fs_server.py`)

`BASE_DIR = r"C:/Users/Administrator/Desktop/TestField"`.  A caller path is
its list of raw segments.  `fullP p` is
`os.path.normpath(os.path.join(BASE_DIR, p))` in segment form (Windows
`ntpath` semantics: `.` and empty segments vanish, `..` pops, and surplus
`..` at the drive root is dropped).  `normRel p` is `os.path.normpath(p)`
for the relative path `p` (surplus `..` segments are kept). -/

def baseRel : List String := ["Users", "Administrator", "Desktop", "TestField"]

def baseSegs : List String := "C:" :: baseRel

/-- Relative-path normalisation, as `ntpath.normpath` on a relative path:
`.` and empty components vanish; `..` pops a previous component unless none
is available, in which case it is kept. -/
def normRelAux : List String → List String → List String
  | acc, [] => acc
  | acc, s :: rest =>
    if s = "" ∨ s = "." then normRelAux acc rest
    else if s = ".." then
      if acc = [] ∨ acc.getLast?.getD "" = ".." then normRelAux (acc ++ [".."]) rest
      else normRelAux acc.dropLast rest
    else normRelAux (acc ++ [s]) rest

def normRel (p : List String) : List String := normRelAux [] p

/-- Absolute-path normalisation below the drive root: as `normRelAux`, but
a `..` that would climb past the root is dropped (the `ntpath.normpath`
clamp at `C:\`).  The accumulator always starts at `["C:"]`. -/
def normAbsAux : List String → List String → List String
  | acc, [] => acc
  | acc, s :: rest =>
    if s = "" ∨ s = "." then normAbsAux acc rest
    else if s = ".." then normAbsAux (if acc.length ≤ 1 then acc else acc.dropLast) rest
    else normAbsAux (acc ++ [s]) rest

/-- `os.path.normpath(os.path.join(BASE_DIR, p))` in segment form. -/
def fullP (p : List String) : List String :=
  normAbsAux ["C:"] (baseRel ++ p)

/-- `os.path.basename` of a normalised absolute path (empty at the drive
root, as `ntpath.basename("C:\\") = ""`). -/
def basenameAbs (l : List String) : String :=
  if l.length ≤ 1 then "" else l.getLast?.getD ""

/-- `os.path.dirname` of a normalised absolute path (the drive root is its
own dirname). -/
def dirnameAbs (l : List String) : List String :=
  if l.length ≤ 1 then l else l.dropLast

/-- The extension component of `os.path.splitext` applied to a basename:
the suffix from the last dot, provided some earlier character of the
basename is not a dot (leading dots never start an extension). -/
def splitextExt (s : String) : String :=
  match (s.data.reverse.findIdx? fun c => c = '.') with
  | none => ""
  | some i =>
    let d := s.data.length - 1 - i
    if (s.data.take d).any (fun c => decide (c ≠ '.')) then
      String.mk (s.data.drop d)
    else ""

/-- Result of `validate_path`: the normalised full path, or the message of
the `ValueError` it raises. -/
inductive VResult where
  | ok (full : List String)
  | error (msg : String)
deriving DecidableEq

/-- `fs_server.validate_path` (fs_server.py lines 19-42): normalise the
path against `BASE_DIR`, reject `.env` basenames/extensions and `.env`
segments of the normalised relative path, and otherwise return the full
path.  Note: the function performs no check that the result lies under
`BASE_DIR`. -/
def validate_path (p : List String) : VResult :=
  if basenameAbs (fullP p) = ".env" ∨ splitextExt (basenameAbs (fullP p)) = ".env" ∨
      endsWithB (basenameAbs (fullP p)) ".env" = true then
    .error "Access denied: .env files are not accessible for security reasons"
  else if ".env" ∈ normRel p then
    .error "Access denied: Paths containing .env directories are not accessible"
  else .ok (fullP p)

/-- Rendering of a segment path for the message strings (the Python code
interpolates the caller's original path string). -/
def renderPath : List String → String
  | [] => ""
  | [x] => x
  | x :: xs => x ++ "/" ++ renderPath xs

/-! ## Claims C1 and C2 — the path guard -/

/-- C1: the claim says that `validate_path` rejects a relative path with a
`..` segment whose normalisation escapes the base directory.  Evaluating
the code at the failing input `../escape.txt`: the guard raises no error
and returns the normalised absolute path
`C:\Users\Administrator\Desktop\escape.txt`, which does not begin with the
base directory.  The traversal check described by the specification does
not exist in `validate_path`. -/
theorem c1_traversal_not_rejected :
    validate_path ["..", "escape.txt"] =
      .ok ["C:", "Users", "Administrator", "Desktop", "escape.txt"] ∧
    listPrefixB baseSegs ["C:", "Users", "Administrator", "Desktop", "escape.txt"] = false := by
  decide

/-- C2 counterexample: the path `.env/..` has a raw segment equal to
`.env`, so the claim says `validate_path` raises an access-denied error;
but the guard inspects only the *normalised* path, in which the `.env`
segment has been cancelled by the following `..`, and accepts the path. -/
theorem c2_raw_env_segment_accepted :
    ".env" ∈ [".env", ".."] ∧ validate_path [".env", ".."] = .ok baseSegs := by
  decide

/-- C2 (amended): `validate_path` raises an access-denied error exactly
when the final component of the *normalised* full path is `.env`, has
extension `.env`, or ends with `.env`, or some segment of the *normalised*
relative path equals `.env` — in particular it rejects every such path
whether or not it stays inside the base directory. -/
theorem c2_env_guard (p : List String) :
    (∃ e, validate_path p = .error e) ↔
      (basenameAbs (fullP p) = ".env" ∨ splitextExt (basenameAbs (fullP p)) = ".env" ∨
       endsWithB (basenameAbs (fullP p)) ".env" = true ∨ ".env" ∈ normRel p) := by
  unfold validate_path
  by_cases h1 : basenameAbs (fullP p) = ".env" ∨ splitextExt (basenameAbs (fullP p)) = ".env" ∨
      endsWithB (basenameAbs (fullP p)) ".env" = true
  · rw [if_pos h1]
    simp only [VResult.error.injEq, exists_eq']
    tauto
  · rw [if_neg h1]
    by_cases h2 : ".env" ∈ normRel p
    · rw [if_pos h2]
      simp only [VResult.error.injEq, exists_eq']
      tauto
    · rw [if_neg h2]
      simp only [reduceCtorEq, exists_false, false_iff]
      tauto

/-- C2 witness: the guard rejects the path `.env` (final normalised
component `.env`), via `c2_env_guard`. -/
theorem c2_env_guard_witness :
    ∃ e, validate_path [".env"] = .error e :=
  (c2_env_guard [".env"]).mpr (by decide)

/-! ## Filesystem model and the `fs_server.py` handlers

The OS state: a list of existing directory paths and an association list
from file paths to their text contents (both keyed by normalised absolute
paths in segment form).  `os.makedirs(d, exist_ok=True)` adds every prefix
of `d` as a directory and fails — mutating nothing, as CPython's recursion
does — when some prefix already exists as a file. -/

structure FS where
  dirs : List (List String)
  files : List (List String × String)
deriving DecidableEq

def FS.isdirB (fs : FS) (p : List String) : Bool := memB fs.dirs p

def FS.lookupFile (fs : FS) (p : List String) : Option String :=
  alookup fs.files p

def FS.isfileB (fs : FS) (p : List String) : Bool := (fs.lookupFile p).isSome

/-- `os.path.exists`. -/
def FS.existsB (fs : FS) (p : List String) : Bool := fs.isdirB p || fs.isfileB p

/-- All nonempty initial segments of a path, shortest first. -/
def prefixesL (p : List String) : List (List String) :=
  (List.range p.length).map (fun i => p.take (i + 1))

/-- `os.makedirs(d, exist_ok=True)`: `none` models the raised
`FileExistsError`/`NotADirectoryError` when a prefix of `d` exists as a
file; otherwise every prefix of `d` becomes a directory. -/
def makedirs (fs : FS) (d : List String) : Option FS :=
  if (prefixesL d).any (fun q => (fs.lookupFile q).isSome) then none
  else some { fs with dirs := fs.dirs ++ (prefixesL d).filter (fun q => !(memB fs.dirs q)) }

/-- Store contents `c` at file path `p` (the `open(p, "w")` write). -/
def FS.setFile (fs : FS) (p : List String) (c : String) : FS :=
  { fs with files := (p, c) :: fs.files.filter (fun e => !(decide (e.1 = p))) }

/-- `shutil.rmtree`: remove the directory and everything below it. -/
def rmtree (fs : FS) (p : List String) : FS :=
  { dirs := fs.dirs.filter (fun q => !(listPrefixB p q)),
    files := fs.files.filter (fun e => !(listPrefixB p e.1)) }

/-- `os.rmdir` on an empty directory. -/
def rmdir (fs : FS) (p : List String) : FS :=
  { fs with dirs := fs.dirs.filter (fun q => !(decide (q = p))) }

/-- The directory `p` has an entry strictly below it (so `os.rmdir p`
raises the "directory is not empty" `OSError`). -/
def FS.hasChildB (fs : FS) (p : List String) : Bool :=
  fs.dirs.any (fun q => listPrefixB p q && !(decide (q = p))) ||
  fs.files.any (fun e => listPrefixB p e.1 && !(decide (e.1 = p)))

/-! ### Text-mode I/O

`fs_server` opens files in text mode with `newline=None`.  On the
Windows host (`BASE_DIR` is a Windows path, `os.linesep = "\r\n"`) a
write translates every `\n` of the content to `\r\n` on disk, and a read
in universal-newlines mode translates every `\r\n` and every lone `\r`
of the on-disk bytes to `\n`.  The `FS.files` map stores the on-disk
bytes; `encodeNl`/`decodeNl` are these two translations. -/

/-- Write-side text-mode translation: `\n` becomes `os.linesep = "\r\n"`
(lone `\r` characters of the content are written unchanged). -/
def encodeNl : List Char → List Char
  | [] => []
  | c :: rest =>
    if c = '\n' then '\r' :: '\n' :: encodeNl rest else c :: encodeNl rest

/-- Read-side universal-newlines translation: `\r\n` and lone `\r` both
become `\n`. -/
def decodeNl : List Char → List Char
  | [] => []
  | c :: rest =>
    if c = '\r' then
      match rest with
      | d :: rest2 =>
        if d = '\n' then '\n' :: decodeNl rest2 else '\n' :: decodeNl (d :: rest2)
      | [] => ['\n']
    else c :: decodeNl rest

def encodeText (c : String) : String := String.mk (encodeNl c.data)

def decodeText (s : String) : String := String.mk (decodeNl s.data)

/-- The text-mode round trip is the identity exactly on contents free of
carriage returns; a lone `\r` is written unchanged but read back as `\n`,
and `\r\n` is written as `\r\r\n` and read back as `\n\n`. -/
theorem decodeNl_encodeNl : ∀ l : List Char, '\r' ∉ l → decodeNl (encodeNl l) = l
  | [], _ => rfl
  | c :: rest, h => by
    have hc : c ≠ '\r' := fun he => h (he ▸ List.mem_cons_self c rest)
    have hr : '\r' ∉ rest := fun hm => h (List.mem_cons_of_mem c hm)
    by_cases hn : c = '\n'
    · subst hn
      have h1 : encodeNl ('\n' :: rest) = '\r' :: '\n' :: encodeNl rest := by
        simp [encodeNl]
      rw [h1]
      have h2 : decodeNl ('\r' :: '\n' :: encodeNl rest) =
          '\n' :: decodeNl (encodeNl rest) := by
        rw [decodeNl.eq_def]
        simp
      rw [h2, decodeNl_encodeNl rest hr]
    · have h1 : encodeNl (c :: rest) = c :: encodeNl rest := by
        simp [encodeNl, hn]
      rw [h1]
      have h2 : decodeNl (c :: encodeNl rest) = c :: decodeNl (encodeNl rest) := by
        rw [decodeNl.eq_def]
        simp [hc]
      rw [h2, decodeNl_encodeNl rest hr]

/-- `fs_server.write_file` (lines 161-186): validate, `os.makedirs` the
parent, open for writing in text mode (which fails if the target is a
directory), write the content with `\n` translated to `os.linesep`.
Returns the new state and the message string. -/
def write_file (fs : FS) (p : List String) (c : String) : FS × String :=
  match validate_path p with
  | .error e => (fs, "Error: " ++ e)
  | .ok full =>
    match makedirs fs (dirnameAbs full) with
    | none => (fs, "Error: Failed to write file: " ++ "[Errno 17] File exists")
    | some fs1 =>
      if fs1.isdirB full then
        (fs1, "Error: Failed to write file: " ++ "[Errno 21] Is a directory")
      else
        (fs1.setFile full (encodeText c),
         "File '" ++ renderPath p ++ "' has been written successfully")

/-- `fs_server.read_file` (lines 129-159): validate, check existence and
file-ness, return the contents read in universal-newlines text mode. -/
def read_file (fs : FS) (p : List String) : String :=
  match validate_path p with
  | .error e => "Error: " ++ e
  | .ok full =>
    if !(fs.existsB full) then "Error: File '" ++ renderPath p ++ "' does not exist"
    else if !(fs.isfileB full) then "Error: '" ++ renderPath p ++ "' is not a file"
    else decodeText ((fs.lookupFile full).getD "")

/-- `fs_server.copy_file` (lines 44-81): validate both paths, require the
source to be an existing file, `os.makedirs` the destination's parent,
refuse an existing destination, otherwise `shutil.copy2` — a binary copy,
so the destination receives the source's on-disk bytes unchanged. -/
def copy_file (fs : FS) (s d : List String) : FS × String :=
  match validate_path s with
  | .error e => (fs, "Error: " ++ e)
  | .ok sfull =>
    match validate_path d with
    | .error e => (fs, "Error: " ++ e)
    | .ok dfull =>
      if !(fs.existsB sfull) then
        (fs, "Error: " ++ ("Source file '" ++ renderPath s ++ "' does not exist"))
      else if !(fs.isfileB sfull) then
        (fs, "Error: " ++ ("Source '" ++ renderPath s ++ "' is not a file"))
      else
        match makedirs fs (dirnameAbs dfull) with
        | none => (fs, "Error: " ++ ("Failed to copy file: " ++ "[Errno 17] File exists"))
        | some fs1 =>
          if fs1.existsB dfull then
            (fs1, "Error: " ++ ("Destination '" ++ renderPath d ++ "' already exists"))
          else
            (fs1.setFile dfull ((fs1.lookupFile sfull).getD ""),
             "File copied successfully from '" ++ renderPath s ++ "' to '" ++ renderPath d ++ "'")

/-- `fs_server.delete_directory` (lines 276-312): validate, require an
existing directory, then `shutil.rmtree` when `recursive` and `os.rmdir`
otherwise; the `OSError` of `os.rmdir` on a non-empty directory is caught
and reported as the "is not empty" message. -/
def delete_directory (fs : FS) (p : List String) (recursive : Bool) : FS × String :=
  match validate_path p with
  | .error e => (fs, "Error: " ++ e)
  | .ok full =>
    if !(fs.existsB full) then
      (fs, "Error: Directory '" ++ renderPath p ++ "' does not exist")
    else if !(fs.isdirB full) then
      (fs, "Error: '" ++ renderPath p ++ "' is not a directory")
    else if recursive then
      (rmtree fs full, "Directory '" ++ renderPath p ++ "' has been deleted successfully")
    else if fs.hasChildB full then
      (fs, "Error: Directory '" ++ renderPath p ++
        "' is not empty. Use recursive=True to delete non-empty directories.")
    else
      (rmdir fs full, "Directory '" ++ renderPath p ++ "' has been deleted successfully")

/-! ### Auxiliary facts about the filesystem model -/

theorem memB_append {α : Type} [DecidableEq α] (a b : List α) (x : α) :
    memB (a ++ b) x = (memB a x || memB b x) := by
  simp [memB, List.any_append]

theorem memB_eq_false_iff {α : Type} [DecidableEq α] (l : List α) (x : α) :
    memB l x = false ↔ x ∉ l := by
  rw [← memB_iff]
  cases memB l x <;> simp

theorem memB_filter_iff {α : Type} [DecidableEq α] (l : List α) (f : α → Bool) (x : α) :
    memB (l.filter f) x = true ↔ (x ∈ l ∧ f x = true) := by
  rw [memB_iff]
  exact List.mem_filter

theorem mem_prefixesL_length {p q : List String} (h : q ∈ prefixesL p) :
    q.length ≤ p.length := by
  rcases List.mem_map.mp h with ⟨i, _, rfl⟩
  simp [List.length_take]

theorem self_mem_prefixesL {p : List String} (h : p ≠ []) : p ∈ prefixesL p := by
  apply List.mem_map.mpr
  have hl : 0 < p.length := List.length_pos.mpr h
  refine ⟨p.length - 1, List.mem_range.mpr (by omega), ?_⟩
  rw [show p.length - 1 + 1 = p.length from by omega]
  simp

theorem makedirs_files {fs fs1 : FS} {d : List String} (h : makedirs fs d = some fs1) :
    fs1.files = fs.files := by
  unfold makedirs at h
  split at h
  · cases h
  · cases h
    rfl

theorem makedirs_dirs {fs fs1 : FS} {d : List String} (h : makedirs fs d = some fs1) :
    fs1.dirs = fs.dirs ++ (prefixesL d).filter (fun q => !(memB fs.dirs q)) := by
  unfold makedirs at h
  split at h
  · cases h
  · cases h
    rfl

theorem makedirs_isdir_mono {fs fs1 : FS} {d q : List String}
    (h : makedirs fs d = some fs1) (hq : fs.isdirB q = true) : fs1.isdirB q = true := by
  unfold FS.isdirB at hq ⊢
  rw [makedirs_dirs h, memB_append, hq]
  rfl

theorem makedirs_exists_mono {fs fs1 : FS} {d q : List String}
    (h : makedirs fs d = some fs1) (hq : fs.existsB q = true) : fs1.existsB q = true := by
  unfold FS.existsB FS.isfileB FS.lookupFile at hq ⊢
  rw [makedirs_files h]
  rcases Bool.or_eq_true_iff.mp hq with h1 | h1
  · rw [makedirs_isdir_mono h h1]
    rfl
  · rw [h1, Bool.or_true]

theorem makedirs_isdir_of_mem {fs fs1 : FS} {d q : List String}
    (h : makedirs fs d = some fs1) (hq : q ∈ prefixesL d) : fs1.isdirB q = true := by
  unfold FS.isdirB
  rw [makedirs_dirs h, memB_append]
  cases hmem : memB fs.dirs q with
  | true => rfl
  | false =>
    rw [Bool.false_or]
    exact (memB_filter_iff _ _ _).mpr ⟨hq, by rw [hmem]; rfl⟩

theorem makedirs_isdir_preserved {fs fs1 : FS} {d q : List String}
    (h : makedirs fs d = some fs1) (hq : fs.isdirB q = false) (hnm : q ∉ prefixesL d) :
    fs1.isdirB q = false := by
  unfold FS.isdirB at hq ⊢
  rw [makedirs_dirs h, memB_append, hq, Bool.false_or]
  cases hmem : memB ((prefixesL d).filter fun r => !(memB fs.dirs r)) q with
  | false => rfl
  | true => exact absurd ((memB_filter_iff _ _ _).mp hmem).1 hnm

theorem existsB_rmtree_self (fs : FS) (p : List String) :
    (rmtree fs p).existsB p = false := by
  unfold FS.existsB FS.isdirB FS.isfileB FS.lookupFile rmtree
  apply Bool.or_eq_false_iff.mpr
  constructor
  · apply (memB_eq_false_iff _ _).mpr
    intro hmem
    have := (List.mem_filter.mp hmem).2
    rw [listPrefixB_refl] at this
    cases this
  · rw [alookup_filter_none (fun e => !(listPrefixB p e.1)) p
      (fun v => by simp [listPrefixB_refl])]
    rfl

theorem validate_path_ok {p full : List String} (h : validate_path p = .ok full) :
    full = fullP p := by
  unfold validate_path at h
  split at h
  · cases h
  · split at h
    · cases h
    · cases h
      rfl

/-! ### Claims C3, C4, C5 — filesystem operations -/

/-- The directory chain of the base directory (every ancestor of
`BASE_DIR` exists, and `BASE_DIR` itself is created at server startup by
`os.makedirs(BASE_DIR, exist_ok=True)`). -/
def baseChain : List (List String) := prefixesL baseSegs

/-- A state with an existing (empty) subdirectory `d` of the base
directory. -/
def fsDirOnly : FS := ⟨baseChain ++ [baseSegs ++ ["d"]], []⟩

/-- C3 counterexample, two independent failures of the unrestricted
claim.  First, `d` is accepted by the path guard but denotes an existing
directory, so `write_file` fails (opening a directory for writing raises)
and the subsequent `read_file` returns the "is not a file" message rather
than the written content.  Second, the round trip is not byte-for-byte
even when the write succeeds: text-mode I/O turns the carriage return of
`"a\rb"` into `"a\nb"` on read-back. -/
theorem c3_directory_target_breaks_roundtrip :
    (validate_path ["d"] = .ok (baseSegs ++ ["d"]) ∧
     read_file (write_file fsDirOnly ["d"] "x").1 ["d"] ≠ "x") ∧
    (validate_path ["f.txt"] = .ok (baseSegs ++ ["f.txt"]) ∧
     read_file (write_file fsDirOnly ["f.txt"] "a\rb").1 ["f.txt"] = "a\nb" ∧
     ("a\nb" : String) ≠ "a\rb") := by
  decide

/-- C3 (amended): for every guard-accepted path whose normalised target is
neither the drive root nor an existing directory, none of whose ancestor
components exists as a file, and every content string free of carriage
returns, `write_file` succeeds — creating the intermediate directories
and silently overwriting any existing file — and an immediate `read_file`
of the same path returns exactly the written content (text-mode newline
translation is the identity on `\r`-free contents). -/
theorem c3_write_read_roundtrip (fs : FS) (p : List String) (c : String) (full : List String)
    (hv : validate_path p = .ok full)
    (hlen : 2 ≤ full.length)
    (hnd : fs.isdirB full = false)
    (hcf : (prefixesL (dirnameAbs full)).all (fun q => (fs.lookupFile q).isNone) = true)
    (hcr : '\r' ∉ c.data) :
    (write_file fs p c).2 = "File '" ++ renderPath p ++ "' has been written successfully" ∧
    read_file (write_file fs p c).1 p = c ∧
    (write_file fs p c).1.isdirB (dirnameAbs full) = true := by
  have hdlen : (dirnameAbs full).length = full.length - 1 := by
    unfold dirnameAbs
    rw [if_neg (by omega)]
    simp [List.length_dropLast]
  have hany : ((prefixesL (dirnameAbs full)).any fun q => (fs.lookupFile q).isSome) = false := by
    rw [List.any_eq_false]
    intro q hq
    have h2 := List.all_eq_true.mp hcf q hq
    simp only [Option.isNone_iff_eq_none] at h2
    simp [h2]
  obtain ⟨fs1, hmk⟩ : ∃ fs1, makedirs fs (dirnameAbs full) = some fs1 := by
    simp [makedirs, hany]
  have hfullnm : full ∉ prefixesL (dirnameAbs full) := by
    intro hm
    have := mem_prefixesL_length hm
    omega
  have hnd1 : fs1.isdirB full = false := makedirs_isdir_preserved hmk hnd hfullnm
  have hd1 : fs1.isdirB (dirnameAbs full) = true := by
    apply makedirs_isdir_of_mem hmk
    apply self_mem_prefixesL
    intro he
    rw [he] at hdlen
    simp at hdlen
    omega
  have hw : write_file fs p c =
      (fs1.setFile full (encodeText c),
       "File '" ++ renderPath p ++ "' has been written successfully") := by
    simp only [write_file, hv, hmk, hnd1, Bool.false_eq_true, if_false]
  have hlook : (fs1.setFile full (encodeText c)).lookupFile full = some (encodeText c) := by
    simp [FS.setFile, FS.lookupFile, alookup]
  have hisf : (fs1.setFile full (encodeText c)).isfileB full = true := by
    simp [FS.isfileB, hlook]
  have hex : (fs1.setFile full (encodeText c)).existsB full = true := by
    simp [FS.existsB, hisf]
  have hdec : decodeText (encodeText c) = c := by
    show String.mk (decodeNl (String.mk (encodeNl c.data)).data) = c
    rw [show (String.mk (encodeNl c.data)).data = encodeNl c.data from rfl,
        decodeNl_encodeNl c.data hcr]
  refine ⟨by rw [hw], ?_, ?_⟩
  · rw [hw]
    simp only [read_file, hv, hex, hisf, Bool.not_true, Bool.false_eq_true, if_false, hlook,
      Option.getD_some]
    exact hdec
  · rw [hw]
    show (fs1.setFile full (encodeText c)).isdirB (dirnameAbs full) = true
    simpa [FS.setFile, FS.isdirB] using hd1

/-- A base-directory state holding the single file `sub/x.txt` (used to
exercise the overwrite case of C3 and as the copy destination of C4). -/
def fsBase : FS := ⟨baseChain, [(baseSegs ++ ["sub", "x.txt"], "old")]⟩

/-- C3 witness: writing `hello` over the existing file `sub/x.txt` (whose
parent directory `sub` does not yet exist as a directory) succeeds and
reads back exactly `hello`. -/
theorem c3_write_read_roundtrip_witness :
    (validate_path ["sub", "x.txt"] = .ok (baseSegs ++ ["sub", "x.txt"]) ∧
     2 ≤ (baseSegs ++ ["sub", "x.txt"]).length ∧
     fsBase.isdirB (baseSegs ++ ["sub", "x.txt"]) = false ∧
     (prefixesL (dirnameAbs (baseSegs ++ ["sub", "x.txt"]))).all
       (fun q => (fsBase.lookupFile q).isNone) = true ∧
     '\r' ∉ ("hello" : String).data) ∧
    ((write_file fsBase ["sub", "x.txt"] "hello").2 =
       "File '" ++ renderPath ["sub", "x.txt"] ++ "' has been written successfully" ∧
     read_file (write_file fsBase ["sub", "x.txt"] "hello").1 ["sub", "x.txt"] = "hello" ∧
     (write_file fsBase ["sub", "x.txt"] "hello").1.isdirB
       (dirnameAbs (baseSegs ++ ["sub", "x.txt"])) = true) :=
  ⟨by decide,
   c3_write_read_roundtrip fsBase ["sub", "x.txt"] "hello" (baseSegs ++ ["sub", "x.txt"])
     (by decide) (by decide) (by decide) (by decide) (by decide)⟩

/-- C4: whenever something already exists at the destination path,
`copy_file` returns an error message, leaves the file map untouched (in
particular the destination's content is unchanged), and the destination
still exists afterwards. -/
theorem c4_copy_no_overwrite (fs : FS) (s d : List String)
    (h : fs.existsB (fullP d) = true) :
    (∃ m, (copy_file fs s d).2 = "Error: " ++ m) ∧
    (copy_file fs s d).1.files = fs.files ∧
    (copy_file fs s d).1.existsB (fullP d) = true := by
  cases hvs : validate_path s with
  | error e =>
    simp only [copy_file, hvs]
    exact ⟨⟨e, rfl⟩, by trivial, h⟩
  | ok sfull =>
    cases hvd : validate_path d with
    | error e =>
      simp only [copy_file, hvs, hvd]
      exact ⟨⟨e, rfl⟩, by trivial, h⟩
    | ok dfull =>
      have hd1 : fs.existsB dfull = true := by
        rw [validate_path_ok hvd]
        exact h
      cases hse : fs.existsB sfull with
      | false =>
        simp only [copy_file, hvs, hvd, hse, Bool.not_false, if_true]
        exact ⟨⟨_, rfl⟩, by trivial, h⟩
      | true =>
        cases hsf : fs.isfileB sfull with
        | false =>
          simp only [copy_file, hvs, hvd, hse, hsf, Bool.not_true, Bool.not_false,
            Bool.false_eq_true, if_false, if_true]
          exact ⟨⟨_, rfl⟩, by trivial, h⟩
        | true =>
          cases hmk : makedirs fs (dirnameAbs dfull) with
          | none =>
            simp only [copy_file, hvs, hvd, hse, hsf, hmk, Bool.not_true,
              Bool.false_eq_true, if_false]
            exact ⟨⟨_, rfl⟩, by trivial, h⟩
          | some fs1 =>
            have hf1 : fs1.files = fs.files := makedirs_files hmk
            have he1 : fs1.existsB dfull = true := makedirs_exists_mono hmk hd1
            simp only [copy_file, hvs, hvd, hse, hsf, hmk, he1, Bool.not_true,
              Bool.false_eq_true, if_false, if_true]
            refine ⟨⟨_, rfl⟩, hf1, ?_⟩
            rw [← validate_path_ok hvd]
            exact he1

/-- C4 witness: copying onto the existing destination `sub/x.txt` fails
with an error and leaves the destination untouched. -/
theorem c4_copy_no_overwrite_witness :
    fsBase.existsB (fullP ["sub", "x.txt"]) = true ∧
    ((∃ m, (copy_file fsBase ["a.txt"] ["sub", "x.txt"]).2 = "Error: " ++ m) ∧
     (copy_file fsBase ["a.txt"] ["sub", "x.txt"]).1.files = fsBase.files ∧
     (copy_file fsBase ["a.txt"] ["sub", "x.txt"]).1.existsB (fullP ["sub", "x.txt"]) = true) :=
  ⟨by decide, c4_copy_no_overwrite fsBase ["a.txt"] ["sub", "x.txt"] (by decide)⟩

/-- C5 (amended): for every guard-accepted path denoting an existing
non-empty directory, the non-recursive delete fails with the "is not
empty" message and changes nothing, while the recursive delete succeeds
and removes the directory. -/
theorem c5_delete_nonempty (fs : FS) (p full : List String)
    (hv : validate_path p = .ok full)
    (hd : fs.isdirB full = true)
    (hne : fs.hasChildB full = true) :
    (delete_directory fs p false).2 = "Error: Directory '" ++ renderPath p ++
      "' is not empty. Use recursive=True to delete non-empty directories." ∧
    (delete_directory fs p false).1 = fs ∧
    (delete_directory fs p true).2 =
      "Directory '" ++ renderPath p ++ "' has been deleted successfully" ∧
    (delete_directory fs p true).1.existsB full = false := by
  have hex : fs.existsB full = true := by
    simp [FS.existsB, hd]
  refine ⟨?_, ?_, ?_, ?_⟩
  · simp only [delete_directory, hv, hex, hd, hne, Bool.not_true, Bool.false_eq_true,
      if_false, if_true]
  · simp only [delete_directory, hv, hex, hd, hne, Bool.not_true, Bool.false_eq_true,
      if_false, if_true]
  · simp only [delete_directory, hv, hex, hd, Bool.not_true, Bool.false_eq_true,
      if_false, if_true]
  · simp only [delete_directory, hv, hex, hd, Bool.not_true, Bool.false_eq_true,
      if_false, if_true]
    exact existsB_rmtree_self fs full

/-- A state with the non-empty subdirectory `d` (it contains `f.txt`). -/
def fsNonEmptyDir : FS :=
  ⟨baseChain ++ [baseSegs ++ ["d"]], [(baseSegs ++ ["d", "f.txt"], "x")]⟩

/-- C5 witness: deleting the non-empty directory `d` without the
recursive flag fails with the "is not empty" message; with the flag it
succeeds and `d` no longer exists. -/
theorem c5_delete_nonempty_witness :
    (validate_path ["d"] = .ok (baseSegs ++ ["d"]) ∧
     fsNonEmptyDir.isdirB (baseSegs ++ ["d"]) = true ∧
     fsNonEmptyDir.hasChildB (baseSegs ++ ["d"]) = true) ∧
    ((delete_directory fsNonEmptyDir ["d"] false).2 = "Error: Directory '" ++
       renderPath ["d"] ++ "' is not empty. Use recursive=True to delete non-empty directories." ∧
     (delete_directory fsNonEmptyDir ["d"] false).1 = fsNonEmptyDir ∧
     (delete_directory fsNonEmptyDir ["d"] true).2 =
       "Directory '" ++ renderPath ["d"] ++ "' has been deleted successfully" ∧
     (delete_directory fsNonEmptyDir ["d"] true).1.existsB (baseSegs ++ ["d"]) = false) :=
  ⟨by decide,
   c5_delete_nonempty fsNonEmptyDir ["d"] (baseSegs ++ ["d"]) (by decide) (by decide) (by decide)⟩

/-- A state with an existing non-empty directory named `.env` inside the
base directory (such a directory can exist on disk; the server itself
never creates one). -/
def fsEnvDir : FS :=
  ⟨baseChain ++ [baseSegs ++ [".env"]], [(baseSegs ++ [".env", "s.txt"], "x")]⟩

/-- C5 counterexample: `.env` is an existing non-empty directory inside
the base directory, yet `delete_directory(".env", recursive=True)` does
not succeed — the path guard raises first — and the directory still
exists afterwards, contradicting the unrestricted claim. -/
theorem c5_env_directory_not_deletable :
    fsEnvDir.isdirB (baseSegs ++ [".env"]) = true ∧
    fsEnvDir.hasChildB (baseSegs ++ [".env"]) = true ∧
    listPrefixB baseSegs (baseSegs ++ [".env"]) = true ∧
    (delete_directory fsEnvDir [".env"] true).2 =
      "Error: " ++ "Access denied: .env files are not accessible for security reasons" ∧
    (delete_directory fsEnvDir [".env"] true).1.isdirB (baseSegs ++ [".env"]) = true := by
  decide

/-! ## `git_server.py` — `git_execute` (claim C6)

`git_execute` screens the raw command string before anything else: a
match of `re.search(r'[;&|`$]', command)` or a `".."` substring is
rejected outright; then the string is tokenised by `str.split()` and the
first token must belong to the allow-list.  Only when every check passes
does the function call `run_git_command`, which is what spawns the
external `git` process — modelled here by the `run` constructor. -/

/-- The characters of the `git_server.py` metacharacter class. -/
def metaChars : List Char := ";&|`$".data

/-- `re.search(r'[;&|`$]', command)` succeeded. -/
def hasMetaB (command : String) : Bool :=
  command.data.any (fun c => decide (c ∈ metaChars))

/-- The whitespace class of Python `str.split()`. -/
def isPySpace (c : Char) : Bool :=
  decide (c ∈ [' ', '\t', '\n', '\r', Char.ofNat 11, Char.ofNat 12])

/-- `str.split()`: split on runs of whitespace, discarding empty pieces.
The second argument accumulates the current token, reversed. -/
def splitWsAux : List Char → List Char → List String
  | [], cur => if cur = [] then [] else [String.mk cur.reverse]
  | c :: rest, cur =>
    if isPySpace c then
      if cur = [] then splitWsAux rest []
      else String.mk cur.reverse :: splitWsAux rest []
    else splitWsAux rest (c :: cur)

def splitWs (s : String) : List String := splitWsAux s.data []

/-- The allow-list of `git_execute` (git_server.py lines 187-191). -/
def allowed_commands : List String :=
  ["version", "status", "log", "add", "commit", "branch",
   "checkout", "init", "diff", "show", "remote", "fetch",
   "config", "tag", "ls-files"]

/-- Outcome of `git_execute`: either an error string returned before any
external process is spawned, or delegation to `run_git_command git_cmd
args`, the only place a subprocess is created. -/
inductive GitExecResult where
  | rejected (msg : String)
  | run (cmd : String) (args : List String)
deriving DecidableEq

/-- `git_server.git_execute` (lines 167-196), up to the point where it
hands over to `run_git_command`. -/
def git_execute (command : String) : GitExecResult :=
  if hasMetaB command || SubStrB ".." command then
    .rejected "Error: Potentially unsafe command detected"
  else
    match splitWs command with
    | [] => .rejected "Error: Empty command"
    | gitCmd :: args =>
      if gitCmd ∈ allowed_commands then .run gitCmd args
      else .rejected ("Error: Command '" ++ gitCmd ++ "' is not allowed")

/-- C6: any command string containing one of the shell metacharacters
`;`, `&`, `|`, backtick, `$`, or the substring `..`, or whose first
whitespace-token is not in the allow-list, is rejected by `git_execute`
with an error — it never reaches `run_git_command`, so no external
process is spawned. -/
theorem c6_git_execute_screens (command : String)
    (h : (∃ c ∈ command.data, c ∈ metaChars) ∨
         ("..").data <:+: command.data ∨
         (∀ t ts, splitWs command = t :: ts → t ∉ allowed_commands)) :
    ∃ m, git_execute command = .rejected m := by
  unfold git_execute
  by_cases hscr : (hasMetaB command || SubStrB ".." command) = true
  · rw [if_pos hscr]
    exact ⟨_, rfl⟩
  · rw [if_neg hscr]
    have hmeta : ¬ ∃ c ∈ command.data, c ∈ metaChars := by
      intro ⟨c, hc, hcm⟩
      apply hscr
      apply Bool.or_eq_true_iff.mpr
      exact Or.inl (List.any_eq_true.mpr ⟨c, hc, decide_eq_true hcm⟩)
    have hdots : ¬ ("..").data <:+: command.data := by
      intro hin
      apply hscr
      apply Bool.or_eq_true_iff.mpr
      exact Or.inr ((listInfixB_iff _ _).mpr hin)
    rcases h with h | h | h
    · exact absurd h hmeta
    · exact absurd h hdots
    · cases hsp : splitWs command with
      | nil => exact ⟨_, rfl⟩
      | cons t ts =>
        refine ⟨"Error: Command '" ++ t ++ "' is not allowed", ?_⟩
        show (if t ∈ allowed_commands then GitExecResult.run t ts
            else GitExecResult.rejected ("Error: Command '" ++ t ++ "' is not allowed")) =
          GitExecResult.rejected ("Error: Command '" ++ t ++ "' is not allowed")
        rw [if_neg (h t ts hsp)]

/-- C6 witness: `push` is not in the allow-list, so `git_execute "push"`
is rejected before any process is spawned. -/
theorem c6_git_execute_screens_witness :
    ∃ m, git_execute "push" = .rejected m :=
  c6_git_execute_screens "push" (Or.inr (Or.inr (by
    intro t ts hsp
    have e : splitWs "push" = ["push"] := by decide
    rw [e] at hsp
    injection hsp with h1 h2
    rw [← h1]
    decide)))

/-! ## `python_server_wsl.py` — execution records (claim C7)

`state.execution_results` is a `dict` from execution id to the saved
record; `save_execution_result` assigns `state.execution_results[id] =
info` (the additional best-effort JSON dump only mirrors the dict to
disk).  `get_execution_results` looks the id up and formats the record,
or returns the "No execution found" error.  The record is a structure
(never a falsy value), so the `if not execution_info` test in the source
is exactly the `none` case of the lookup. -/

structure ExecInfo where
  filename : String
  timestamp : String
  exit_code : Int
  stdout : String
  stderr : String
  args : List String
  docker_container : Bool
  docker_image : String
deriving DecidableEq

/-- Python `x or d` for a string `x` (the empty string is falsy). -/
def orDefault (s d : String) : String := if s = "" then d else s

/-- `save_execution_result` (python_server_wsl.py lines 321-333): the
dict assignment `state.execution_results[execution_id] = info`. -/
def save_execution_result (st : List (String × ExecInfo)) (execution_id : String)
    (info : ExecInfo) : List (String × ExecInfo) :=
  (execution_id, info) :: st.filter (fun e => !(decide (e.1 = execution_id)))

/-- The result text built by `get_execution_results` for a found record.  -/
def renderExecution (execution_id : String) (info : ExecInfo) : String :=
  joinLines (["Execution ID: " ++ execution_id,
      "Python file: " ++ info.filename,
      "Timestamp: " ++ info.timestamp]
    ++ (if info.docker_container then ["Docker Image: " ++ info.docker_image] else [])
    ++ ["Exit code: " ++ toString info.exit_code,
        "Arguments: " ++ (if info.args = [] then "None" else joinSpace info.args),
        "", "=== STDOUT ===", orDefault info.stdout "(No output)",
        "", "=== STDERR ===", orDefault info.stderr "(No errors)"])

/-- `get_execution_results` (python_server_wsl.py lines 526-569). -/
def get_execution_results (st : List (String × ExecInfo)) (execution_id : String) : String :=
  match alookup st execution_id with
  | none => "Error: No execution found with ID " ++ execution_id
  | some info => renderExecution execution_id info

theorem alookup_save_self (st : List (String × ExecInfo)) (x : String) (info : ExecInfo) :
    alookup (save_execution_result st x info) x = some info := by
  simp [save_execution_result, alookup]

/-- The rendered record contains the saved stdout verbatim. -/
theorem renderExecution_has_stdout (x : String) (info : ExecInfo) :
    SubStrB info.stdout (renderExecution x info) = true := by
  apply (listInfixB_iff _ _).mpr
  by_cases h : info.stdout = ""
  · rw [h]
    exact ⟨[], (renderExecution x info).data, by simp⟩
  · apply mem_joinLines_contains
    simp [List.mem_append, orDefault, h]

/-- The rendered record contains the saved stderr verbatim. -/
theorem renderExecution_has_stderr (x : String) (info : ExecInfo) :
    SubStrB info.stderr (renderExecution x info) = true := by
  apply (listInfixB_iff _ _).mpr
  by_cases h : info.stderr = ""
  · rw [h]
    exact ⟨[], (renderExecution x info).data, by simp⟩
  · apply mem_joinLines_contains
    simp [List.mem_append, orDefault, h]

/-- The rendered record contains the saved exit code. -/
theorem renderExecution_has_exit_code (x : String) (info : ExecInfo) :
    SubStrB (toString info.exit_code) (renderExecution x info) = true := by
  apply (listInfixB_iff _ _).mpr
  have hel : ("Exit code: " ++ toString info.exit_code).data <:+:
      (renderExecution x info).data := by
    apply mem_joinLines_contains
    simp [List.mem_append]
  apply List.IsInfix.trans _ hel
  rw [str_data_append]
  exact ⟨"Exit code: ".data, [], by simp⟩

/-- C7: an execution record saved under id `x` is retrieved under `x` as
the formatted result — which contains exactly the saved stdout, stderr
and exit code — and looking up an id `y` that was never saved yields the
"No execution found" error message. -/
theorem c7_execution_records (st : List (String × ExecInfo)) (x y : String)
    (info : ExecInfo) (hy : alookup st y = none) :
    get_execution_results (save_execution_result st x info) x = renderExecution x info ∧
    SubStrB info.stdout (get_execution_results (save_execution_result st x info) x) = true ∧
    SubStrB info.stderr (get_execution_results (save_execution_result st x info) x) = true ∧
    SubStrB (toString info.exit_code)
      (get_execution_results (save_execution_result st x info) x) = true ∧
    get_execution_results st y = "Error: No execution found with ID " ++ y := by
  have hg : get_execution_results (save_execution_result st x info) x =
      renderExecution x info := by
    simp [get_execution_results, alookup_save_self]
  refine ⟨hg, ?_, ?_, ?_, ?_⟩
  · rw [hg]; exact renderExecution_has_stdout x info
  · rw [hg]; exact renderExecution_has_stderr x info
  · rw [hg]; exact renderExecution_has_exit_code x info
  · simp [get_execution_results, hy]

/-- A concrete execution record for the C7 witness. -/
def execInfo0 : ExecInfo :=
  ⟨"script.py", "20240101_120000", 2, "out text", "", ["--x"], true, "python:3.11-slim"⟩

/-- C7 witness: saving `execInfo0` under `"id-1"` in the empty store and
reading it back, and looking up the unknown id `"missing"`. -/
theorem c7_execution_records_witness :
    alookup ([] : List (String × ExecInfo)) "missing" = none ∧
    (get_execution_results (save_execution_result [] "id-1" execInfo0) "id-1" =
       renderExecution "id-1" execInfo0 ∧
     SubStrB execInfo0.stdout
       (get_execution_results (save_execution_result [] "id-1" execInfo0) "id-1") = true ∧
     SubStrB execInfo0.stderr
       (get_execution_results (save_execution_result [] "id-1" execInfo0) "id-1") = true ∧
     SubStrB (toString execInfo0.exit_code)
       (get_execution_results (save_execution_result [] "id-1" execInfo0) "id-1") = true ∧
     get_execution_results [] "missing" = "Error: No execution found with ID " ++ "missing") :=
  ⟨rfl, c7_execution_records [] "id-1" "missing" execInfo0 rfl⟩

/-! ## `mcp_info_server.py` — documentation search (claim C8)

`search_file_content` scans the lines of one document for case-insensitive
occurrences of the (regex-escaped, hence literal) query and produces, per
matching line `i`, the entry `"[Lines {start+1}-{end}]\n" + window` with
`start = max(0, i-2)` and `end = min(len(lines), i+3)`.
`search_mcp_docs` walks the documentation files (modelled as a given list
of relative path/content pairs — the `os.walk`, extension and 10 MB
filters select that list) and renders, per file with matches, at most the
first **5** matches plus a "... and N more matches." note; no caller
parameter influences this cutoff. -/

/-- `re.compile(re.escape(query), re.IGNORECASE).search(line)` succeeded:
case-insensitive literal substring match. -/
def matchesQ (query line : String) : Bool :=
  listInfixB (query.data.map Char.toLower) (line.data.map Char.toLower)

def splitOnNlAux : List Char → List Char → List String
  | [], cur => [String.mk cur.reverse]
  | c :: rest, cur =>
    if c = '\n' then String.mk cur.reverse :: splitOnNlAux rest []
    else splitOnNlAux rest (c :: cur)

/-- `content.split('\n')` (keeps empty pieces). -/
def splitLines (s : String) : List String := splitOnNlAux s.data []

/-- `lines[max(0, i-2) : min(len(lines), i+3)]`. -/
def lineWindow (lines : List String) (i : Nat) : List String :=
  (lines.drop (i - 2)).take (min lines.length (i + 3) - (i - 2))

/-- One result entry of `search_file_content`: the line-range label and
the context window. -/
def entryFor (lines : List String) (i : Nat) : String :=
  "[Lines " ++ toString (i - 2 + 1) ++ "-" ++ toString (min lines.length (i + 3)) ++ "]"
    ++ "\n" ++ joinLines (lineWindow lines i)

/-- The `for i, line in enumerate(lines)` loop of `search_file_content`. -/
def searchAux (q : String) (allLines : List String) : List String → Nat → List String
  | [], _ => []
  | ln :: rest, i =>
    if matchesQ q ln then entryFor allLines i :: searchAux q allLines rest (i + 1)
    else searchAux q allLines rest (i + 1)

/-- `mcp_info_server.search_file_content` (lines 72-97). -/
def search_file_content (query content : String) : List String :=
  if query = "" ∨ content = "" then []
  else searchAux query (splitLines content) (splitLines content) 0

/-- The `for i, match in enumerate(matches[:5], 1)` loop of
`search_mcp_docs`. -/
def matchBlocks : List String → Nat → List String
  | [], _ => []
  | m :: rest, i => ("### Match " ++ toString i ++ ":") :: m :: "" :: matchBlocks rest (i + 1)

/-- The lines `search_mcp_docs` appends for one file with matches `ms`:
header, count, the first **5** matches, and the overflow note. -/
def fileBlock (relpath : String) (ms : List String) : List String :=
  ["## File: " ++ relpath, "Found " ++ toString ms.length ++ " matches:" ++ "\n"]
    ++ matchBlocks (ms.take 5) 1
    ++ (if 5 < ms.length then ["... and " ++ toString (ms.length - 5) ++ " more matches."] else [])
    ++ [""]

/-- `mcp_info_server.search_mcp_docs` (lines 237-295) over the filtered
document list. -/
def search_mcp_docs (query : String) (files : List (String × String)) : String :=
  if query = "" ∨ query.length < 3 then
    "Please provide a search term with at least 3 characters."
  else
    let results := List.flatten (files.map fun fc =>
      if search_file_content query fc.2 = [] then []
      else fileBlock fc.1 (search_file_content query fc.2))
    if results = [] then "No matches found for '" ++ query ++ "' in MCP documentation."
    else joinLines results

theorem searchAux_mem (q : String) (all : List String) :
    ∀ (l : List String) (k j : Nat) (hj : j < l.length),
      matchesQ q (l.get ⟨j, hj⟩) = true →
      entryFor all (k + j) ∈ searchAux q all l k
  | [], _, j, hj, _ => absurd hj (by simp)
  | ln :: rest, k, 0, _, hm => by
    simp only [List.get] at hm
    simp only [searchAux, hm, if_true, Nat.add_zero]
    exact List.mem_cons_self _ _
  | ln :: rest, k, j + 1, hj, hm => by
    have hj2 : j < rest.length := by
      simp only [List.length_cons] at hj
      omega
    have hm2 : matchesQ q (rest.get ⟨j, hj2⟩) = true := hm
    have ih := searchAux_mem q all rest (k + 1) j hj2 hm2
    rw [show k + 1 + j = k + (j + 1) from by omega] at ih
    unfold searchAux
    cases matchesQ q ln with
    | true => exact List.mem_cons_of_mem _ ih
    | false => exact ih

theorem take_get_mem {α : Type} :
    ∀ (l : List α) (e j : Nat) (hj : j < l.length), j < e → l.get ⟨j, hj⟩ ∈ l.take e
  | [], _, j, hj, _ => absurd hj (by simp)
  | x :: t, e, 0, _, he => by
    cases e with
    | zero => omega
    | succ e2 =>
      simp [List.take]
  | x :: t, e, j + 1, hj, he => by
    cases e with
    | zero => omega
    | succ e2 =>
      have hj2 : j < t.length := by
        simp only [List.length_cons] at hj
        omega
      simp only [List.take, List.get]
      exact List.mem_cons_of_mem _ (take_get_mem t e2 j hj2 (by omega))

theorem drop_get_eq {α : Type} :
    ∀ (a : Nat) (l : List α) (j : Nat) (h : a + j < l.length),
      ∃ h2 : j < (l.drop a).length, (l.drop a).get ⟨j, h2⟩ = l.get ⟨a + j, h⟩
  | 0, l, j, h => ⟨by simpa using h, by simp⟩
  | a + 1, [], j, h => absurd h (by simp)
  | a + 1, x :: t, j, h => by
    have h2 : a + j < t.length := by
      simp only [List.length_cons] at h
      omega
    obtain ⟨hb, he⟩ := drop_get_eq a t j h2
    refine ⟨by simpa using hb, ?_⟩
    simp only [List.drop_succ_cons]
    rw [he]
    have hidx : (⟨a + 1 + j, h⟩ : Fin ((x :: t).length)) =
        ⟨(a + j) + 1, by simp only [List.length_cons]; omega⟩ := Fin.mk_eq_mk.mpr (by omega)
    rw [hidx]
    rfl

/-- The matching line belongs to its own context window. -/
theorem get_mem_lineWindow (lines : List String) (i : Nat) (hi : i < lines.length) :
    lines.get ⟨i, hi⟩ ∈ lineWindow lines i := by
  have ha : (i - 2) + (i - (i - 2)) = i := by omega
  have h1 : (i - 2) + (i - (i - 2)) < lines.length := by omega
  obtain ⟨hb, he⟩ := drop_get_eq (i - 2) lines (i - (i - 2)) h1
  have he2 : (lines.drop (i - 2)).get ⟨i - (i - 2), hb⟩ = lines.get ⟨i, hi⟩ := by
    rw [he]
    congr 1
    exact Fin.ext ha
  rw [← he2]
  apply take_get_mem
  have hmin : min lines.length (i + 3) ≤ i + 3 := Nat.min_le_right _ _
  have hmin2 : i + 1 ≤ min lines.length (i + 3) := by
    apply Nat.le_min.mpr
    omega
  omega

/-- The context window never exceeds five lines (the matching line, at
most two before, at most two after). -/
theorem lineWindow_length_le (lines : List String) (i : Nat) :
    (lineWindow lines i).length ≤ 5 := by
  unfold lineWindow
  rw [List.length_take]
  have hmin : min lines.length (i + 3) ≤ i + 3 := Nat.min_le_right _ _
  omega

theorem SubStrB_pref (x y z : String) : SubStrB x ((x ++ y) ++ z) = true := by
  apply (listInfixB_iff _ _).mpr
  rw [str_data_append, str_data_append]
  exact ⟨[], y.data ++ z.data, by simp⟩

set_option maxRecDepth 8192 in
/-- C8 counterexample: on a document whose six lines all match, the
per-file result is cut at the fixed maximum of five matches and reports
"... and 1 more matches." — `search_mcp_docs` takes no caller-supplied
maximum that could change this. -/
theorem c8_truncation_fixed_at_five :
    (search_file_content "abc" "abc\nabc\nabc\nabc\nabc\nabc").length = 6 ∧
    SubStrB "... and 1 more matches."
      (search_mcp_docs "abc" [("f.txt", "abc\nabc\nabc\nabc\nabc\nabc")]) = true ∧
    SubStrB "### Match 5:"
      (search_mcp_docs "abc" [("f.txt", "abc\nabc\nabc\nabc\nabc\nabc")]) = true ∧
    SubStrB "### Match 6:"
      (search_mcp_docs "abc" [("f.txt", "abc\nabc\nabc\nabc\nabc\nabc")]) = false := by
  decide

/-- C8 (amended): for every nonempty query and document, each matching
line yields a result entry made of the line-range label and the window of
surrounding lines: the entry is in the search results, the matching line
lies inside its window, the window spans
`lines[max(0,i-2) : min(len,i+3)]` and hence holds at most five lines,
and the entry carries the `[Lines start+1-end]` label.  The number of
matches displayed per file is truncated at the fixed maximum 5 (with an
overflow note), not at a caller-specified maximum. -/
theorem c8_search_window_and_truncation (q c rp : String) (i : Nat)
    (hq : q ≠ "") (hc : c ≠ "")
    (hi : i < (splitLines c).length)
    (hm : matchesQ q ((splitLines c).get ⟨i, hi⟩) = true) :
    entryFor (splitLines c) i ∈ search_file_content q c ∧
    (splitLines c).get ⟨i, hi⟩ ∈ lineWindow (splitLines c) i ∧
    lineWindow (splitLines c) i =
      ((splitLines c).drop (i - 2)).take (min (splitLines c).length (i + 3) - (i - 2)) ∧
    (lineWindow (splitLines c) i).length ≤ 5 ∧
    SubStrB ("[Lines " ++ toString (i - 2 + 1) ++ "-" ++
        toString (min (splitLines c).length (i + 3)) ++ "]")
      (entryFor (splitLines c) i) = true ∧
    ((search_file_content q c).take 5).length = min 5 (search_file_content q c).length ∧
    (5 < (search_file_content q c).length →
      ("... and " ++ toString ((search_file_content q c).length - 5) ++ " more matches.") ∈
        fileBlock rp (search_file_content q c)) := by
  refine ⟨?_, get_mem_lineWindow _ i hi, rfl, lineWindow_length_le _ i, ?_, ?_, ?_⟩
  · unfold search_file_content
    rw [if_neg (by
      intro hor
      rcases hor with h1 | h1
      · exact hq h1
      · exact hc h1)]
    have := searchAux_mem q (splitLines c) (splitLines c) 0 i hi hm
    simpa using this
  · unfold entryFor
    exact SubStrB_pref _ _ _
  · simp [List.length_take]
  · intro hlen
    unfold fileBlock
    rw [if_pos hlen]
    simp [List.mem_append]

/-- C8 witness: searching `abc` in the three-line document `x\nabc\ny`
(match on line index 1). -/
theorem c8_search_window_witness :
    (("abc" : String) ≠ "" ∧ ("x\nabc\ny" : String) ≠ "" ∧
     1 < (splitLines "x\nabc\ny").length ∧
     matchesQ "abc" ((splitLines "x\nabc\ny").get ⟨1, by decide⟩) = true) ∧
    (entryFor (splitLines "x\nabc\ny") 1 ∈ search_file_content "abc" "x\nabc\ny" ∧
     (splitLines "x\nabc\ny").get ⟨1, by decide⟩ ∈ lineWindow (splitLines "x\nabc\ny") 1 ∧
     lineWindow (splitLines "x\nabc\ny") 1 =
       ((splitLines "x\nabc\ny").drop (1 - 2)).take
         (min (splitLines "x\nabc\ny").length (1 + 3) - (1 - 2)) ∧
     (lineWindow (splitLines "x\nabc\ny") 1).length ≤ 5 ∧
     SubStrB ("[Lines " ++ toString (1 - 2 + 1) ++ "-" ++
         toString (min (splitLines "x\nabc\ny").length (1 + 3)) ++ "]")
       (entryFor (splitLines "x\nabc\ny") 1) = true ∧
     ((search_file_content "abc" "x\nabc\ny").take 5).length =
       min 5 (search_file_content "abc" "x\nabc\ny").length ∧
     (5 < (search_file_content "abc" "x\nabc\ny").length →
       ("... and " ++ toString ((search_file_content "abc" "x\nabc\ny").length - 5) ++
           " more matches.") ∈
         fileBlock "f.txt" (search_file_content "abc" "x\nabc\ny"))) :=
  ⟨by decide,
   c8_search_window_and_truncation "abc" "x\nabc\ny" "f.txt" 1
     (by decide) (by decide) (by decide) (by decide)⟩

/-! ## `python_execution_server.py` — filename sanitisation (claim C9)

`sanitize_filename` keeps only the characters of the safe set;
`write_python_file` then appends `.py` unless the sanitised name already
ends with it, and stores the code at
`os.path.join(execution_dir, safe_filename)`.  `execute_python_code`
looks files up under `sanitize_filename(filename)` (without appending
`.py` — so the caller must pass the `.py` name, as the default
`script.py` does). -/

/-- The safe character set of `sanitize_filename` (lines 25-28). -/
def safeChars : List Char :=
  "abcdefghijklmnopqrstuvwxyzABCDEFGHIJKLMNOPQRSTUVWXYZ0123456789_-.".data

/-- `sanitize_filename`: drop every character outside the safe set. -/
def sanitize_filename (filename : String) : String :=
  String.mk (filename.data.filter (fun c => decide (c ∈ safeChars)))

/-- The filename under which `write_python_file` stores the code (lines
46-49): the sanitised name, with `.py` appended when missing. -/
def storedFilename (filename : String) : String :=
  if endsWithB (sanitize_filename filename) ".py" then sanitize_filename filename
  else sanitize_filename filename ++ ".py"

theorem sanitize_filename_all_safe (g : String) :
    (sanitize_filename g).data.all (fun c => decide (c ∈ safeChars)) = true := by
  apply List.all_eq_true.mpr
  intro c hc
  exact (List.mem_filter.mp hc).2

/-- C9: for every caller-supplied filename, the stored filename consists
only of the safe characters (ASCII letters, digits, `_`, `-`, `.`) and
ends with `.py`; in particular it contains no `/` or `\` separator, so
`os.path.join` places the file directly inside the per-execution
directory.  The name `execute_python_code` later looks up is likewise
made of safe characters only. -/
theorem c9_stored_filename_safe (f g : String) :
    (storedFilename f).data.all (fun c => decide (c ∈ safeChars)) = true ∧
    endsWithB (storedFilename f) ".py" = true ∧
    '/' ∉ (storedFilename f).data ∧
    '\\' ∉ (storedFilename f).data ∧
    (sanitize_filename g).data.all (fun c => decide (c ∈ safeChars)) = true := by
  have hall : (storedFilename f).data.all (fun c => decide (c ∈ safeChars)) = true := by
    unfold storedFilename
    cases hend : endsWithB (sanitize_filename f) ".py" with
    | true =>
      rw [if_pos rfl]
      exact sanitize_filename_all_safe f
    | false =>
      rw [if_neg Bool.false_ne_true]
      rw [str_data_append]
      rw [List.all_append]
      rw [sanitize_filename_all_safe f]
      decide
  have hends : endsWithB (storedFilename f) ".py" = true := by
    unfold storedFilename
    cases hend : endsWithB (sanitize_filename f) ".py" with
    | true => rw [if_pos rfl]; exact hend
    | false =>
      rw [if_neg Bool.false_ne_true]
      apply decide_eq_true
      rw [str_data_append]
      exact ⟨(sanitize_filename f).data, rfl⟩
  refine ⟨hall, hends, ?_, ?_, sanitize_filename_all_safe g⟩
  · intro hmem
    have h2 := List.all_eq_true.mp hall _ hmem
    exact absurd (of_decide_eq_true h2) (by decide)
  · intro hmem
    have h2 := List.all_eq_true.mp hall _ hmem
    exact absurd (of_decide_eq_true h2) (by decide)

/-! ## `calculator_server.py` — `divide` (claim C10)

CPython's `int.__truediv__` computes the correctly-rounded `float` of the
exact quotient and raises `OverflowError` when the rounded magnitude
leaves `float` range.  With round-to-nearest-even this happens exactly
when the exact quotient's magnitude reaches `2^1024 - 2^970` (the
midpoint above the largest finite double `2^1024 - 2^971`, which ties
upward to the even `2^1024`).  The model keeps the in-range result as the
exact rational (the rounding of an in-range quotient is not modelled) and
represents the uncaught `OverflowError` by the `raised` outcome; the zero
check returns the error string instead of dividing. -/

inductive CalcResult where
  | err (msg : String)
  | raised
  | val (q : ℚ)
deriving DecidableEq

/-- The smallest exact quotient magnitude on which CPython's int true
division raises `OverflowError`. -/
def floatOverflowBound : ℚ := 2 ^ 1024 - 2 ^ 970

/-- `calculator_server.divide` (lines 23-28): the zero guard, then
Python's `a / b` with its float-overflow error path. -/
def divide (a b : Int) : CalcResult :=
  if b = 0 then .err "Error: Cannot divide by zero"
  else if floatOverflowBound ≤ |(a : ℚ) / (b : ℚ)| then .raised
  else .val ((a : ℚ) / (b : ℚ))

theorem overflow_input_large : floatOverflowBound ≤ |((10 ^ 400 : ℤ) : ℚ) / ((1 : ℤ) : ℚ)| := by
  rw [show ((1 : ℤ) : ℚ) = 1 from rfl, div_one]
  rw [abs_of_nonneg (by positivity)]
  unfold floatOverflowBound
  push_cast
  norm_num

theorem seven_thirds_small : |((7 : ℤ) : ℚ) / ((3 : ℤ) : ℚ)| < floatOverflowBound := by
  rw [abs_of_nonneg (by positivity)]
  unfold floatOverflowBound
  norm_num

/-- C10 counterexample: the claim says `divide` never raises and returns
the quotient for every nonzero divisor, but at `a = 10^400`, `b = 1` the
quotient exceeds float range, so CPython's division raises
`OverflowError` and no quotient is returned. -/
theorem c10_overflow_raises :
    (1 : ℤ) ≠ 0 ∧
    divide (10 ^ 400) 1 = .raised ∧
    divide (10 ^ 400) 1 ≠ .val (((10 ^ 400 : ℤ) : ℚ) / ((1 : ℤ) : ℚ)) := by
  have hr : divide (10 ^ 400) 1 = .raised := by
    unfold divide
    rw [if_neg (by norm_num), if_pos overflow_input_large]
  exact ⟨by norm_num, hr, by rw [hr]; exact fun h => by cases h⟩

/-- C10 (amended): `divide` guards the zero divisor, returning the string
`"Error: Cannot divide by zero"` instead of dividing; for `b ≠ 0` it
returns the quotient `a / b` whenever the quotient's magnitude is below
the float-overflow bound `2^1024 - 2^970` — and the returned value is the
genuine quotient, as multiplying it back by `b` recovers `a` — while at
or above the bound the division raises `OverflowError`. -/
theorem c10_divide_guarded (a b : Int) :
    (b = 0 → divide a b = .err "Error: Cannot divide by zero") ∧
    (b ≠ 0 → |(a : ℚ) / (b : ℚ)| < floatOverflowBound →
      divide a b = .val ((a : ℚ) / (b : ℚ))) ∧
    (b ≠ 0 → floatOverflowBound ≤ |(a : ℚ) / (b : ℚ)| → divide a b = .raised) ∧
    (∀ q : ℚ, divide a b = .val q → q * (b : ℚ) = (a : ℚ)) := by
  refine ⟨fun h => by simp [divide, h], ?_, ?_, ?_⟩
  · intro h h2
    simp only [divide, if_neg h]
    rw [if_neg (not_le.mpr h2)]
  · intro h h2
    simp only [divide, if_neg h]
    rw [if_pos h2]
  · intro q hq
    by_cases h : b = 0
    · simp [divide, h] at hq
    · simp only [divide, if_neg h] at hq
      by_cases h2 : floatOverflowBound ≤ |(a : ℚ) / (b : ℚ)|
      · rw [if_pos h2] at hq
        cases hq
      · rw [if_neg h2] at hq
        injection hq with h3
        rw [← h3]
        apply div_mul_cancel₀
        exact_mod_cast h

/-- C10 witness: `divide 7 0` yields the error string, `divide 7 3`
yields the in-range quotient `7/3`, and `divide (10^400) 1` hits the
overflow branch, all via `c10_divide_guarded`. -/
theorem c10_divide_guarded_witness :
    ((0 : ℤ) = 0 ∧ divide 7 0 = .err "Error: Cannot divide by zero") ∧
    ((3 : ℤ) ≠ 0 ∧ |((7 : ℤ) : ℚ) / ((3 : ℤ) : ℚ)| < floatOverflowBound ∧
      divide 7 3 = .val (((7 : ℤ) : ℚ) / ((3 : ℤ) : ℚ))) ∧
    ((1 : ℤ) ≠ 0 ∧ floatOverflowBound ≤ |((10 ^ 400 : ℤ) : ℚ) / ((1 : ℤ) : ℚ)| ∧
      divide (10 ^ 400) 1 = .raised) :=
  ⟨⟨rfl, (c10_divide_guarded 7 0).1 rfl⟩,
   ⟨by decide, seven_thirds_small,
    (c10_divide_guarded 7 3).2.1 (by decide) seven_thirds_small⟩,
   ⟨by decide, overflow_input_large,
    (c10_divide_guarded (10 ^ 400) 1).2.2.1 (by decide) overflow_input_large⟩⟩
